import Mathlib

/-!
Verification development for the `idl` package (YARP interface-description
language front end): a shallow embedding of its scanner (`scanner.go`),
parser (`parser.go`, `tokens.go`, `file.go`), and file-set resolver
(`fileset.go`), together with theorems settling a list of behavioural
claims about the pipeline.

Conventions used throughout the embedding:
* Go runes are `Char`; source text is a `List Char`.
* Go `int` indexes are `Nat` (all indexes in the source are non-negative).
* A Go runtime panic (index out of range, nil-pointer dereference) is an
  explicit `panic` constructor of the relevant result type.
* Loops are compiled to structurally recursive functions on an explicit
  fuel argument so that all definitions reduce inside the kernel; callers
  pass fuel that provably dominates the number of iterations, and loops
  that the Go code can genuinely run forever on surface a distinct
  `fuelOut` outcome.
* Go error-message strings built with `fmt.Sprintf` are paraphrased
  without quotes/backticks; no theorem below depends on the exact
  wording of a message, only on which error is produced and its position.
-/

namespace Yarp

/-- Lexical categories of tokens (Go `Element`, `types.go`). The Go
constant `Annotation` is rendered `AnnotationTk`. -/
inductive Element where
  | InvalidElement
  | Identifier
  | OpenCurly
  | CloseCurly
  | OpenParen
  | CloseParen
  | OpenAngled
  | CloseAngled
  | Comma
  | Dot
  | LineBreak
  | Equal
  | Number
  | Arrow
  | Semi
  | Comment
  | AnnotationTk
  | StringElement
  | EOF
deriving DecidableEq, Repr

/-- A single token (Go `Token`, `types.go`): category, literal text and the
recorded line/column. -/
structure Token where
  typ : Element
  value : String
  line : Nat
  col : Nat
deriving DecidableEq, Repr

/-- Go `Token.is`. -/
def Token.is (t : Token) (o : Element) : Bool := t.typ = o

/-- Primitive scalar types (Go `PrimitiveType`, `types.go`). -/
inductive PrimitiveType where
  | Invalid
  | Uint8
  | Uint16
  | Uint32
  | Uint64
  | Int8
  | Int16
  | Int32
  | Int64
  | Float32
  | Float64
  | Struct
  | OneOf
  | Bool
  | String
deriving DecidableEq, Repr

/-- Field types (the Go `Type` interface with its four implementations
`Primitive`, `Array`, `Map`, `Unresolved` from `types.go`, rendered as a
closed sum; `Type` itself is not a legal Lean name). -/
inductive Ty where
  | primitive (kind : PrimitiveType)
  | array (of : Ty)
  | map (key : PrimitiveType) (value : Ty)
  | unresolved (name : String)
deriving DecidableEq, Repr

/-! ## Scanner (`scanner.go`)

The scanner state is the immutable rune list `data` plus the cursor
`current`; `start` is passed explicitly where the Go code uses it. -/

/-- ASCII fragment of Go `unicode.IsDigit` (the development only exercises
ASCII inputs; for ASCII the two agree exactly). -/
def isGoDigit (c : Char) : Bool := '0' ≤ c && c ≤ '9'

/-- ASCII fragment of Go `unicode.IsGraphic` (printable ASCII; for ASCII
inputs the two agree exactly). -/
def isGoGraphic (c : Char) : Bool := 0x20 ≤ c.toNat && c.toNat ≤ 0x7e

/-- Characters of identifiers after the first (scanner `identifier`). -/
def isIdentRest (c : Char) : Bool :=
  ('a' ≤ c && c ≤ 'z') || ('A' ≤ c && c ≤ 'Z') || c = '_' || ('0' ≤ c && c ≤ '9')

/-- First character test inside scanner `identifier` (letters/underscore). -/
def isIdentFirst (c : Char) : Bool :=
  ('a' ≤ c && c ≤ 'z') || ('A' ≤ c && c ≤ 'Z') || c = '_'

/-- Go `Scanner.peek`: the rune at `current`, or NUL at/after the end. -/
def peekAt (data : List Char) (current : Nat) : Char :=
  if h : current < data.length then data[current] else Char.ofNat 0

/-- Go `Scanner.pos`: line and column obtained by walking the first
`current` runes; a newline bumps the line and resets the column to 1
before the unconditional increment. -/
def goPos (data : List Char) (current : Nat) : Nat × Nat :=
  (data.take current).foldl
    (fun p ch => if ch = '\n' then (p.1 + 1, 2) else (p.1, p.2 + 1)) (1, 1)

/-- The sub-list `data[a:b]` of a Go slice expression. -/
def sub (data : List Char) (a b : Nat) : List Char :=
  (data.drop a).take (b - a)

/-- Go `simpleTokens` map (rune to element). -/
def simpleTok (r : Char) : Option Element :=
  if r = '(' then some .OpenParen
  else if r = ')' then some .CloseParen
  else if r = '<' then some .OpenAngled
  else if r = '>' then some .CloseAngled
  else if r = '{' then some .OpenCurly
  else if r = '}' then some .CloseCurly
  else if r = ',' then some .Comma
  else if r = '.' then some .Dot
  else if r = '=' then some .Equal
  else if r = ';' then some .Semi
  else if r = '\n' then some .LineBreak
  else none

/-- Result of one of the scanner's inner consuming loops: the cursor where
the loop stopped, a panic (the loop advanced past the end of the input),
or fuel exhaustion (never reached when called with adequate fuel). -/
inductive LoopRes where
  | done (cur : Nat)
  | panic
  | fuelOut
deriving DecidableEq, Repr

/-- Loop of scanner `comment`: advance while the peeked rune is not a
newline; peek yields NUL past the end, so reaching the end panics on the
next advance. -/
def commentLoop (data : List Char) : Nat → Nat → LoopRes
  | 0, _ => .fuelOut
  | fuel + 1, current =>
      if peekAt data current = '\n' then .done current
      else if current < data.length then commentLoop data fuel (current + 1)
      else .panic

/-- Loop of scanner `annotation`: advance while the peeked rune is not a
space; as with comments, running off the end panics. -/
def annotLoop (data : List Char) : Nat → Nat → LoopRes
  | 0, _ => .fuelOut
  | fuel + 1, current =>
      if peekAt data current = ' ' then .done current
      else if current < data.length then annotLoop data fuel (current + 1)
      else .panic

/-- Loop of scanner `number`: advance while the peeked rune is a digit
(peek past the end is NUL, which is not a digit, so this loop is total). -/
def numberLoop (data : List Char) : Nat → Nat → Nat
  | 0, current => current
  | fuel + 1, current =>
      if isGoDigit (peekAt data current) then
        numberLoop data fuel (current + 1)
      else current

/-- Second loop of scanner `identifier`: advance while the peeked rune is
a letter, underscore or digit. -/
def identLoop (data : List Char) : Nat → Nat → Nat
  | 0, current => current
  | fuel + 1, current =>
      if isIdentRest (peekAt data current) then
        identLoop data fuel (current + 1)
      else current

/-- Result of the `string` literal loop: `brk cur` leaves the cursor on the
closing quote, `unterminated cur` is the `unterminated string` error raised
with the cursor at `cur`. -/
inductive StrLoopRes where
  | brk (cur : Nat)
  | unterminated (cur : Nat)
  | fuelOut
deriving DecidableEq, Repr

/-- Loop of scanner `string`: consume runes keeping an `escaping` flag; a
backslash sets it, a quote seen with it set clears it (and is consumed),
a quote seen with it clear ends the loop, a newline or the end of input is
an unterminated-string error.  Faithful to the Go `switch`: nothing else
resets `escaping`. -/
def stringLoop (data : List Char) : Nat → Nat → Bool → StrLoopRes
  | 0, _, _ => .fuelOut
  | fuel + 1, current, escaping =>
      if h : current < data.length then
        let c := data[current]
        if c = '"' then
          if escaping then stringLoop data fuel (current + 1) false
          else .brk current
        else if c = '\\' then stringLoop data fuel (current + 1) true
        else if c = '\n' then .unterminated current
        else stringLoop data fuel (current + 1) escaping
      else .unterminated current

/-- Go `strings.ReplaceAll(s, "\\\"", "\"")` on rune lists. -/
def replaceEscQuote : List Char → List Char
  | '\\' :: '"' :: rest => '"' :: replaceEscQuote rest
  | c :: rest => c :: replaceEscQuote rest
  | [] => []

/-- ASCII fragment of the whitespace set of Go `strings.TrimSpace`. -/
def isGoSpace (c : Char) : Bool :=
  c = ' ' || c = '\t' || c = '\n' || c = '\r' || c = Char.ofNat 0x0b || c = Char.ofNat 0x0c

/-- Go `strings.TrimSpace` on rune lists. -/
def trimSpace (cs : List Char) : List Char :=
  ((cs.dropWhile isGoSpace).reverse.dropWhile isGoSpace).reverse

/-- Result of one `scanToken` step: the emitted tokens (none for blanks)
and the new cursor, a syntax error, or a runtime panic. -/
inductive StepRes where
  | ok (ts : List Token) (cur : Nat)
  | synErr (msg : String) (line : Nat) (col : Nat)
  | panic
deriving DecidableEq, Repr

/-- Scanner `string` (the string-literal routine).  Entered with the
opening quote at `start` already consumed (`current = start + 1`); the
routine's own first `s.advance()` consumes one further rune unconditionally
(a panic when the quote was the last rune), and only then the loop runs. -/
def scanString (data : List Char) (start : Nat) : StepRes :=
  let lc := goPos data (start + 1)
  if start + 1 < data.length then
    match stringLoop data (data.length + 2) (start + 2) false with
    | .brk idx =>
        .ok [⟨.StringElement,
              String.mk (replaceEscQuote (sub data (start + 1) idx)), lc.1, lc.2⟩]
           (idx + 1)
    | .unterminated cur =>
        .synErr "unterminated string" (goPos data cur).1 (goPos data cur).2
    | .fuelOut => .panic
  else .panic

/-- Scanner `scanToken`: classify the rune at `start` (which `Run`
guarantees to exist) and emit at most one token.  Each branch mirrors the
corresponding case of the Go `switch`. -/
def scanToken (data : List Char) (start : Nat) : StepRes :=
  if hs : start < data.length then
    let r := data[start]
    let current := start + 1
    if r = '@' then
      match annotLoop data (data.length + 2) current with
      | .done cur =>
          if cur - start = 1 then
            .synErr "unexpected rune, expected identifier" (goPos data cur).1 (goPos data cur).2
          else
            .ok [⟨.AnnotationTk, String.mk (sub data (start + 1) cur),
                  (goPos data current).1, (goPos data current).2⟩] cur
      | .panic => .panic
      | .fuelOut => .panic
    else if r = '-' then
      if peekAt data current = '>' then
        .ok [⟨.Arrow, "->", (goPos data current).1, (goPos data current).2⟩] (current + 1)
      else
        if current < data.length then
          .synErr "unexpected rune, expected greater-than" (goPos data (current + 1)).1
            (goPos data (current + 1)).2
        else .panic
    else if r = '\r' || r = ' ' || r = '\t' then
      .ok [] current
    else if r = '"' then
      scanString data start
    else if r = '#' then
      match commentLoop data (data.length + 2) current with
      | .done cur =>
          .ok [⟨.Comment, String.mk (trimSpace (sub data (start + 1) cur)),
                (goPos data current).1, (goPos data current).2⟩] cur
      | .panic => .panic
      | .fuelOut => .panic
    else
      match simpleTok r with
      | some k => .ok [⟨k, String.mk [r], (goPos data current).1, (goPos data current).2⟩] current
      | none =>
          if isGoDigit r then
            let cur := numberLoop data (data.length + 2) current
            .ok [⟨.Number, String.mk (sub data start cur),
                  (goPos data current).1, (goPos data current).2⟩] cur
          else if isGoGraphic r then
            let c1 := if isIdentFirst (peekAt data current) then current + 1 else current
            let cur := identLoop data (data.length + 2) c1
            .ok [⟨.Identifier, String.mk (sub data start cur),
                  (goPos data current).1, (goPos data current).2⟩] cur
          else
            .synErr "unexpected rune" (goPos data current).1 (goPos data current).2
  else .panic

/-- Overall scan result (Go `Scanner.Run`). -/
inductive ScanRes where
  | ok (ts : List Token)
  | synErr (msg : String) (line : Nat) (col : Nat)
  | panic
  | fuelOut
deriving DecidableEq, Repr

/-- Loop of `Scanner.Run`: scan tokens until the input is exhausted, then
append the EOF token. -/
def runLoop (data : List Char) : Nat → Nat → ScanRes
  | 0, _ => .fuelOut
  | fuel + 1, current =>
      if current < data.length then
        match scanToken data current with
        | .ok ts cur =>
            match runLoop data fuel cur with
            | .ok rest => .ok (ts ++ rest)
            | r => r
        | .synErr m l c => .synErr m l c
        | .panic => .panic
      else
        .ok [⟨.EOF, "", (goPos data current).1, (goPos data current).2⟩]

/-- Go `Scanner.Run` on a rune list.  Each successful `scanToken` advances
the cursor, so `data.length + 1` steps always suffice; `fuelOut` is
unreachable. -/
def scannerRun (data : List Char) : ScanRes :=
  runLoop data (data.length + 1) 0

/-- Go `Scan` specialised to in-memory sources: decode the string into
runes and run the scanner. -/
def scanSource (src : String) : ScanRes :=
  scannerRun src.toList

end Yarp

namespace Yarp

/-! ## String and path utilities

Kernel-reducible replacements for the Go standard-library string helpers
the source uses (`strings.Join`, `strconv.Atoi`, `path/filepath`). -/

/-- Go `strings.Join(l, " ")`. -/
def joinSpace : List String → String
  | [] => ""
  | [x] => x
  | x :: rest => x ++ " " ++ joinSpace rest

/-- Accumulate a digit run into a number. -/
def digitsToNatAux : List Char → Nat → Nat
  | [], acc => acc
  | c :: rest, acc => digitsToNatAux rest (acc * 10 + (c.toNat - 48))

/-- Go `strconv.Atoi` restricted to the scanner's `Number` tokens, which
are always non-empty digit runs (Go additionally fails on 64-bit overflow,
which `Nat` does not model; no claim depends on 19-digit indexes). -/
def atoiDigits (st : String) : Option Nat :=
  if st.toList ≠ [] ∧ st.toList.all isGoDigit then some (digitsToNatAux st.toList 0)
  else none

/-- Split a path into components at every slash. -/
def splitSlashAux : List Char → List Char → List String
  | [], acc => [String.mk acc.reverse]
  | c :: rest, acc =>
      if c = '/' then String.mk acc.reverse :: splitSlashAux rest []
      else splitSlashAux rest (c :: acc)

/-- Components of a path (Go `strings.Split(p, "/")`). -/
def splitSlash (p : String) : List String := splitSlashAux p.toList []

/-- Join path components with slashes. -/
def joinSlash : List String → String
  | [] => ""
  | [x] => x
  | x :: rest => x ++ "/" ++ joinSlash rest

/-- Whether a path is rooted (begins with a slash). -/
def isRooted (p : String) : Bool :=
  match p.toList with
  | '/' :: _ => true
  | _ => false

/-! ## Go slice model

`parser.go` accumulates pending comments and annotations in two slices
(`p.comments`, `p.annotations`) that are captured by reference into emitted
AST nodes and then re-sliced to length zero by `flushMeta`.  Go slices are
headers (array pointer, length) over a backing array, and `append` writes
in place whenever spare capacity remains, so this sharing is observable.
The model below represents backing arrays in an explicit heap (a list of
arrays, each stored at its full capacity) and slice headers as an array id
plus a length.  Growth on reallocation doubles the capacity, matching the
Go runtime's small-slice growth policy. -/

/-- A Go slice header: backing-array id and length. -/
structure GoSlice where
  id : Nat
  len : Nat
deriving DecidableEq, Repr

/-- The header of a nil slice (id 0 over an initially empty heap). -/
def nilSlice : GoSlice := ⟨0, 0⟩

/-- Dereference a slice: the first `len` entries of its backing array. -/
def sliceRead {α : Type} (h : List (List α)) (s : GoSlice) : List α :=
  (h.getD s.id []).take s.len

/-- Go `append(s, x)` for a single element: write in place when capacity
remains, otherwise allocate a fresh backing array with doubled capacity
(the old array stays in the heap, still visible through old headers). -/
def sliceAppend {α : Type} [Inhabited α] (h : List (List α)) (s : GoSlice) (x : α) :
    List (List α) × GoSlice :=
  let arr := h.getD s.id []
  if s.len < arr.length then
    (h.set s.id (arr.set s.len x), ⟨s.id, s.len + 1⟩)
  else
    let newcap := max 1 (2 * arr.length)
    (h ++ [(arr.take s.len ++ [x]) ++ List.replicate (newcap - (s.len + 1)) default],
     ⟨h.length, s.len + 1⟩)

/-- Go `s[:0]`: same backing array, length zero. -/
def sliceFlush (s : GoSlice) : GoSlice := ⟨s.id, 0⟩

/-! ## Path helpers (`path/filepath`, Unix rules)

`file.go` and `fileset.go` use `filepath.Clean`, `Join`, `Dir` and `Abs`;
these are pure lexical functions, modelled here directly. -/

/-- One step of `filepath.Clean`: process a path component against the
output stack. -/
def pathCleanStep (rooted : Bool) (out : List String) (c : String) : List String :=
  if c = "" || c = "." then out
  else if c = ".." then
    if out ≠ [] && out.getLast? ≠ some ".." then out.dropLast
    else if !rooted then out ++ [".."]
    else out
  else out ++ [c]

/-- `filepath.Clean` (Unix). -/
def pathClean (p : String) : String :=
  if p = "" then "." else
  let rooted := isRooted p
  let out := (splitSlash p).foldl (pathCleanStep rooted) []
  let res := joinSlash out
  if rooted then "/" ++ res
  else if res = "" then "." else res

/-- `filepath.Join` of two components (Unix). -/
def pathJoin (a b : String) : String :=
  if a = "" then (if b = "" then "" else pathClean b)
  else if b = "" then pathClean a
  else pathClean (a ++ "/" ++ b)

/-- `filepath.Dir` (Unix). -/
def pathDir (p : String) : String :=
  let comps := splitSlash p
  if comps.length ≤ 1 then pathClean ""
  else pathClean (joinSlash comps.dropLast ++ "/")

/-- `filepath.Abs` relative to a working directory `cwd`. -/
def pathAbs (cwd p : String) : String :=
  if isRooted p then pathClean p else pathJoin cwd p

/-! ## AST (`parser.go` declarations and `file.go`) -/

/-- A line/column pair (Go `Position`). -/
structure Position where
  line : Nat
  col : Nat
deriving DecidableEq, Repr

/-- Start/end positions of a construct (Go `Offset`). -/
structure Offset where
  startsAt : Position
  endsAt : Position
deriving DecidableEq, Repr

instance : Inhabited Offset := ⟨⟨⟨0, 0⟩, ⟨0, 0⟩⟩⟩

/-- Go `offsetBetween`. -/
def offsetBetween (a b : Token) : Offset :=
  ⟨⟨a.line, a.col⟩, ⟨b.line, b.col⟩⟩

/-- A single annotation occurrence (Go `AnnotationValue`). -/
structure AnnotationValue where
  offset : Offset
  name : String
  value : List String
deriving DecidableEq, Repr

instance : Inhabited AnnotationValue := ⟨⟨default, "", []⟩⟩

/-- Go `Package` declaration node. -/
structure PackageDecl where
  offset : Offset
  name : String
deriving DecidableEq, Repr

/-- Go `Import` declaration node. -/
structure ImportDecl where
  offset : Offset
  path : String
deriving DecidableEq, Repr

/-- Go `Field`.  `comments` and `annotations` are slice headers into the
parser's comment/annotation heaps (Go `[]string` / `AnnotationCollection`). -/
structure Field where
  offset : Offset
  name : String
  comments : GoSlice
  annotations : GoSlice
  ty : Ty
  index : Nat
deriving DecidableEq, Repr

/-- A member of a message: Go stores `Field` and `OneOfField` values in a
`[]any`; `OneOfField` is inlined here because its `Items` again holds
members (Go allows only fields there, enforced at parse time). -/
inductive FieldItem where
  | fld (f : Field)
  | one (offset : Offset) (comments : GoSlice) (annotations : GoSlice)
        (index : Nat) (items : List FieldItem)

/-- Go `Message`. -/
structure Message where
  offset : Offset
  name : String
  comments : GoSlice
  annotations : GoSlice
  fields : List FieldItem

/-- Go `Method`. -/
structure Method where
  offset : Offset
  name : String
  comments : GoSlice
  annotations : GoSlice
  argumentType : String
  returnType : String
  returnStreaming : Bool
deriving DecidableEq, Repr

/-- Go `Service`. -/
structure Service where
  offset : Offset
  name : String
  comments : GoSlice
  annotations : GoSlice
  methods : List Method
deriving DecidableEq, Repr

/-- An entry of the file tree (Go `File.Tree`, a `[]any` over `Package`,
`Import`, `Message`, `Service`). -/
inductive Decl where
  | pkgDecl (p : PackageDecl)
  | impDecl (i : ImportDecl)
  | msgDecl (m : Message)
  | srvDecl (s : Service)

/-- Go `File` (`file.go`). -/
structure File where
  tree : List Decl
  pkg : String
  declaredMessages : List String
  declaredServices : List String
  importedFiles : List String
  declaredNames : List (String × Decl)

/-- The zero `File`. -/
def emptyFile : File := ⟨[], "", [], [], [], []⟩

/-- Replace-or-append on an association list (Go map assignment). -/
def assocSet (l : List (String × Decl)) (k : String) (v : Decl) : List (String × Decl) :=
  if (l.lookup k).isSome then
    l.map (fun p => if p.1 = k then (k, v) else p)
  else l ++ [(k, v)]

/-- Go `File.push`. -/
def filePush (f : File) (val : Decl) : File :=
  let f := { f with tree := f.tree ++ [val] }
  match val with
  | .pkgDecl p => { f with pkg := p.name }
  | .impDecl i => { f with importedFiles := f.importedFiles ++ [pathClean i.path] }
  | .msgDecl m =>
      { f with declaredMessages := f.declaredMessages ++ [m.name],
               declaredNames := assocSet f.declaredNames m.name (.msgDecl m) }
  | .srvDecl s =>
      { f with declaredServices := f.declaredServices ++ [s.name],
               declaredNames := assocSet f.declaredNames s.name (.srvDecl s) }

/-- Go `File.isImported`. -/
def fileIsImported (f : File) (path : String) : Bool :=
  f.importedFiles.contains (pathClean path)

/-- Go `File.isDefined`. -/
def fileIsDefined (f : File) (name : String) : Bool :=
  (f.declaredNames.lookup name).isSome

/-- Go `File.MessageByName`. -/
def fileMessageByName (f : File) (name : String) : Option Message :=
  match f.declaredNames.lookup name with
  | some (.msgDecl m) => some m
  | _ => none

/-- Go `File.ServiceByName`. -/
def fileServiceByName (f : File) (name : String) : Option Service :=
  match f.declaredNames.lookup name with
  | some (.srvDecl s) => some s
  | _ => none

end Yarp

namespace Yarp

/-! ## Parser (`parser.go`, cursor from `tokens.go`)

The parser state carries the token list with its cursor (Go `tokenList`),
the pending-comment and pending-annotation buffers with their heaps, and
the `File` under construction.  Every loop takes fuel (see the header);
the annotation-value loop can genuinely loop forever in Go (it advances
past the end of the token list waiting for a `)`), which surfaces as
`fuelOut`. -/

/-- Parser state. -/
structure ParserSt where
  tokens : List Token
  current : Nat
  commentsH : List (List String)
  commentsBuf : GoSlice
  annotsH : List (List AnnotationValue)
  annotsBuf : GoSlice
  file : File

/-- Parser-level failures: a `ParseError` (offending token plus message),
an Atoi failure, a runtime panic, or fuel exhaustion. -/
inductive PErr where
  | parseErr (tok : Token) (msg : String)
  | plainErr (msg : String)
  | atoiErr
  | panic
  | fuelOut
deriving DecidableEq, Repr

/-- Go `tokenList.peek`: the current token, or a zero EOF token once the
cursor is past the end. -/
def tlPeek (st : ParserSt) : Token :=
  if h : st.current < st.tokens.length then st.tokens[st.current] else ⟨.EOF, "", 0, 0⟩

/-- Go `tokenList.peekPrevious`: the token before the cursor; indexes the
raw list, so an empty list (cursor 0) or a cursor beyond length + 1
panics. -/
def tlPeekPrevious (st : ParserSt) : Except PErr Token :=
  if st.current = 0 then
    match st.tokens.get? 0 with
    | some t => .ok t
    | none => .error .panic
  else
    match st.tokens.get? (st.current - 1) with
    | some t => .ok t
    | none => .error .panic

/-- Go `tokenList.advance`. -/
def tlAdvance (st : ParserSt) : Token × ParserSt :=
  (tlPeek st, { st with current := st.current + 1 })

/-- Go `tokenList.error`: a `ParseError` at the current token. -/
def tlError (st : ParserSt) (msg : String) : PErr := .parseErr (tlPeek st) msg

/-- Go `parser.flushMeta`: re-slice both pending buffers to length zero
(the backing arrays, and any emitted node holding a header onto them, are
untouched). -/
def flushMeta (st : ParserSt) : ParserSt :=
  { st with commentsBuf := sliceFlush st.commentsBuf, annotsBuf := sliceFlush st.annotsBuf }

/-- Append one pending comment (Go `p.comments = append(p.comments, c)`). -/
def appendComment (st : ParserSt) (c : String) : ParserSt :=
  let r := sliceAppend st.commentsH st.commentsBuf c
  { st with commentsH := r.1, commentsBuf := r.2 }

/-- Append one pending annotation value. -/
def appendAnnot (st : ParserSt) (av : AnnotationValue) : ParserSt :=
  let r := sliceAppend st.annotsH st.annotsBuf av
  { st with annotsH := r.1, annotsBuf := r.2 }

/-- Go `stringToPrimitive` map. -/
def stringToPrimitive (t : String) : Option PrimitiveType :=
  if t = "string" then some .String
  else if t = "uint8" then some .Uint8
  else if t = "uint16" then some .Uint16
  else if t = "uint32" then some .Uint32
  else if t = "uint64" then some .Uint64
  else if t = "int8" then some .Int8
  else if t = "int16" then some .Int16
  else if t = "int32" then some .Int32
  else if t = "int64" then some .Int64
  else if t = "float32" then some .Float32
  else if t = "float64" then some .Float64
  else if t = "bool" then some .Bool
  else none

/-- Go `parser.parseMapKey`: the key must be a primitive-type identifier
other than `bool`.  (The Go error message enumerates the valid key names in
random map-iteration order; the message is paraphrased here.) -/
def parseMapKey (st : ParserSt) : Except PErr (PrimitiveType × ParserSt) :=
  if !(tlPeek st).is .Identifier then .error (tlError st "unexpected token")
  else
    let (k, st) := tlAdvance st
    match stringToPrimitive k.value with
    | some v =>
        if v = .Bool then .error (tlError st "invalid type for map key")
        else .ok (v, st)
    | none => .error (tlError st "invalid type for map key")

/-- Go `parser.parseIndex`: expect `=` and a number, then `strconv.Atoi`
(which cannot fail on the scanner's digit-run tokens short of overflow). -/
def parseIndex (st : ParserSt) : Except PErr (Nat × ParserSt) :=
  if !(tlPeek st).is .Equal then .error (tlError st "expected equals")
  else
    let st := (tlAdvance st).2
    if !(tlPeek st).is .Number then .error (tlError st "expected number")
    else
      let (t, st) := tlAdvance st
      match atoiDigits t.value with
      | some n => .ok (n, st)
      | none => .error .atoiErr

/-- Loop collecting a dotted unresolved type name (the `default` arm of Go
`parseType`): consume while the next token is an identifier or a dot. -/
def unresolvedNameLoop : Nat → ParserSt → List String → Except PErr (List String × ParserSt)
  | 0, _, _ => .error .fuelOut
  | fuel + 1, st, v =>
      if (tlPeek st).is .Identifier || (tlPeek st).is .Dot then
        let (t, st) := tlAdvance st
        unresolvedNameLoop fuel st (v ++ [t.value])
      else .ok (v, st)

/-- Call tags for the mutually recursive type grammar: `parseType`,
`parseArrayType` (after its `<` check) and `parseMapType`. -/
inductive TyCall where
  | top
  | arr
  | mapv
deriving DecidableEq, Repr

/-- Go `parser.parseType` / `parseArrayType` / `parseMapType`, fused into
one fueled function (tag selects the entry point).  Note `parseMapType`
starts straight at `parseMapKey`: unlike `parseArrayType` it never consumes
an `<` token. -/
def parseTypeF : Nat → TyCall → ParserSt → Except PErr (Ty × ParserSt)
  | 0, _, _ => .error .fuelOut
  | fuel + 1, .top, st =>
      if !(tlPeek st).is .Identifier then .error (tlError st "unexpected token")
      else
        let (t, st) := tlAdvance st
        match stringToPrimitive t.value with
        | some v => .ok (.primitive v, st)
        | none =>
            if t.value = "array" then parseTypeF fuel .arr st
            else if t.value = "map" then parseTypeF fuel .mapv st
            else
              match unresolvedNameLoop fuel st [t.value] with
              | .ok (v, st) => .ok (.unresolved (String.join v), st)
              | .error e => .error e
  | fuel + 1, .arr, st =>
      if !(tlPeek st).is .OpenAngled then .error (tlError st "expected open angled")
      else
        let st := (tlAdvance st).2
        match parseTypeF fuel .top st with
        | .error e => .error e
        | .ok (t, st) =>
            if !(tlPeek st).is .CloseAngled then .error (tlError st "expected close angled")
            else .ok (.array t, (tlAdvance st).2)
  | fuel + 1, .mapv, st =>
      match parseMapKey st with
      | .error e => .error e
      | .ok (k, st) =>
          if !(tlPeek st).is .Comma then .error (.plainErr "expected comma")
          else
            let st := (tlAdvance st).2
            match parseTypeF fuel .top st with
            | .error e => .error e
            | .ok (v, st) =>
                if !(tlPeek st).is .CloseAngled then .error (.plainErr "expected close angled")
                else .ok (.map k v, (tlAdvance st).2)

end Yarp

namespace Yarp

/-- The annotation-value loop inside Go `parser.parseOne` (`case
Annotation`, after seeing `(`): collect comma-separated runs of token
texts.  The loop only stops on a `)` token; Go's cursor happily advances
past the end of the list forever (peek keeps returning the EOF sentinel,
which is not `)`), which here exhausts the fuel. -/
def annotValsLoop : Nat → ParserSt → List String → List String →
    Except PErr (List String × List String × ParserSt)
  | 0, _, _, _ => .error .fuelOut
  | fuel + 1, st, vals, val =>
      if (tlPeek st).is .CloseParen then .ok (vals, val, st)
      else if (tlPeek st).is .Comma then
        if vals.length = 0 then .error (tlError st "expected value")
        else
          let vals := vals ++ [joinSpace val]
          annotValsLoop fuel (tlAdvance st).2 vals []
      else
        let (t, st) := tlAdvance st
        annotValsLoop fuel st vals (val ++ [t.value])

/-- Go `parser.parseOne` без its `or` callback: handle the trivia cases
(line break, annotation, comment) and return the updated state, or `none`
when the current token is none of those (the caller then runs its `or`
production, exactly as Go invokes the closure). -/
def parseOneStep (fuel : Nat) (st : ParserSt) : Except PErr (Option ParserSt) :=
  match (tlPeek st).typ with
  | .LineBreak =>
      match tlPeekPrevious st with
      | .error e => .error e
      | .ok prev =>
          let st := if prev.is .LineBreak then flushMeta st else st
          .ok (some (tlAdvance st).2)
  | .AnnotationTk =>
      let (start, st) := tlAdvance st
      if (tlPeek st).is .OpenParen then
        match annotValsLoop fuel st [] [] with
        | .error e => .error e
        | .ok (vals, val, st) =>
            let vals := if val.length > 0 then vals ++ [joinSpace val] else vals
            let (endTok, st) := tlAdvance st
            .ok (some (appendAnnot st ⟨offsetBetween start endTok, start.value, vals⟩))
      else
        .ok (some (appendAnnot st ⟨offsetBetween start start, start.value, []⟩))
  | .Comment =>
      match tlPeekPrevious st with
      | .error e => .error e
      | .ok prev =>
          let push := prev.is .LineBreak
          let (cmm, st) := tlAdvance st
          .ok (some (if push then appendComment st cmm.value else st))
  | _ => .ok none

/-- Call tags for the structure-member block: the member loop of a message
or oneof body (Go `for !peek().is(CloseCurly) { parseOne(...) }`),
`parseStructureField`, and `parseOneOf`. -/
inductive SfCall where
  | loopItems (allowOneOf : Bool)
  | sField (allowOneOf : Bool)
  | oneOf
deriving DecidableEq, Repr

/-- Go `parser.parseStructureField` / `parseOneOf` and the member loops
that drive them, fused into one fueled function over the accumulated
member list. -/
def sfF : Nat → SfCall → List FieldItem → ParserSt → Except PErr (List FieldItem × ParserSt)
  | 0, _, _, _ => .error .fuelOut
  | fuel + 1, .loopItems allow, arr, st =>
      if (tlPeek st).is .CloseCurly then .ok (arr, st)
      else
        match parseOneStep fuel st with
        | .error e => .error e
        | .ok (some st) => sfF fuel (.loopItems allow) arr st
        | .ok none =>
            match sfF fuel (.sField allow) arr st with
            | .error e => .error e
            | .ok (arr, st) => sfF fuel (.loopItems allow) arr st
  | fuel + 1, .sField allow, arr, st =>
      if !(tlPeek st).is .Identifier then .error (tlError st "expected identifier")
      else if (tlPeek st).value = "oneof" then
        if !allow then .error (tlError st "oneof field is not allowed at this point")
        else sfF fuel .oneOf arr st
      else
        let (fName, st) := tlAdvance st
        match parseTypeF fuel .top st with
        | .error e => .error e
        | .ok (fType, st) =>
            match parseIndex st with
            | .error e => .error e
            | .ok (fIndex, st) =>
                if !(tlPeek st).is .Semi then .error (tlError st "expected semicolon")
                else
                  let (endTok, st) := tlAdvance st
                  let arr := arr ++ [.fld ⟨offsetBetween fName endTok, fName.value,
                                           st.commentsBuf, st.annotsBuf, fType, fIndex⟩]
                  .ok (arr, flushMeta st)
  | fuel + 1, .oneOf, arr, st =>
      let (start, st) := tlAdvance st
      if !(tlPeek st).is .OpenCurly then .error (tlError st "expected open curly")
      else
        let st := (tlAdvance st).2
        let oneComments := st.commentsBuf
        let oneAnnots := st.annotsBuf
        let st := flushMeta st
        match sfF fuel (.loopItems false) [] st with
        | .error e => .error e
        | .ok (items, st) =>
            let st := (tlAdvance st).2
            match parseIndex st with
            | .error e => .error e
            | .ok (idx, st) =>
                if !(tlPeek st).is .Semi then .error (tlError st "expected semicolon")
                else
                  let (endTok, st) := tlAdvance st
                  .ok (arr ++ [.one (offsetBetween start endTok) oneComments oneAnnots idx items], st)

/-- Go `parser.message`. -/
def messageFn (fuel : Nat) (st : ParserSt) : Except PErr ParserSt :=
  let (start, st) := tlAdvance st
  if !(tlPeek st).is .Identifier then .error (tlError st "expected identifier")
  else
    let name := tlPeek st
    if fileIsDefined st.file name.value then .error (tlError st "already defined")
    else
      let st := (tlAdvance st).2
      if !(tlPeek st).is .OpenCurly then .error (tlError st "expected open curly")
      else
        let mComments := st.commentsBuf
        let mAnnots := st.annotsBuf
        let st := (tlAdvance st).2
        let st := flushMeta st
        match sfF fuel (.loopItems true) [] st with
        | .error e => .error e
        | .ok (fields, st) =>
            let (endTok, st) := tlAdvance st
            .ok { st with file := filePush st.file (.msgDecl ⟨offsetBetween start endTok, name.value, mComments, mAnnots, fields⟩) }

/-- Argument-type loop of Go `parser.parseMethod`: the first identifier
replaces the `void` sentinel, later identifier/dot tokens concatenate. -/
def methodArgLoop : Nat → ParserSt → String → Except PErr (String × ParserSt)
  | 0, _, _ => .error .fuelOut
  | fuel + 1, st, reqType =>
      if (tlPeek st).is .Identifier || (tlPeek st).is .Dot then
        let (t, st) := tlAdvance st
        methodArgLoop fuel st (if reqType = "void" then t.value else reqType ++ t.value)
      else .ok (reqType, st)

/-- Return-type loop of Go `parser.parseMethod`: plain concatenation. -/
def methodRetLoop : Nat → ParserSt → String → Except PErr (String × ParserSt)
  | 0, _, _ => .error .fuelOut
  | fuel + 1, st, retType =>
      if (tlPeek st).is .Identifier || (tlPeek st).is .Dot then
        let (t, st) := tlAdvance st
        methodRetLoop fuel st (retType ++ t.value)
      else .ok (retType, st)

/-- Body of the closure returned by Go `parser.parseMethod`. -/
def parseMethodBody (fuel : Nat) (st : ParserSt) : Except PErr (Method × ParserSt) :=
  if !(tlPeek st).is .Identifier then .error (tlError st "expected identifier")
  else
    let (name, st) := tlAdvance st
    if !(tlPeek st).is .OpenParen then .error (tlError st "expected open paren")
    else
      let st := (tlAdvance st).2
      if !(tlPeek st).is .Identifier && !(tlPeek st).is .CloseParen then
        .error (tlError st "expected identifier or close paren")
      else
        match methodArgLoop fuel st "void" with
        | .error e => .error e
        | .ok (reqType, st) =>
            if !(tlPeek st).is .CloseParen then .error (tlError st "expected close paren")
            else
              let st := (tlAdvance st).2
              let retResult : Except PErr (String × Bool × ParserSt) :=
                if !(tlPeek st).is .Semi then
                  if !(tlPeek st).is .Arrow then .error (tlError st "expected arrow")
                  else
                    let st := (tlAdvance st).2
                    let (stream, st) :=
                      if (tlPeek st).is .Identifier && (tlPeek st).value = "stream" then
                        (true, (tlAdvance st).2)
                      else (false, st)
                    if !(tlPeek st).is .Identifier then .error (tlError st "expected identifier")
                    else
                      match methodRetLoop fuel st "" with
                      | .error e => .error e
                      | .ok (retType, st) => .ok (retType, stream, st)
                else .ok ("void", false, st)
              match retResult with
              | .error e => .error e
              | .ok (retType, stream, st) =>
                  if !(tlPeek st).is .Semi then .error (tlError st "expected semicolon")
                  else
                    let (endTok, st) := tlAdvance st
                    let m : Method := ⟨offsetBetween name endTok, name.value,
                                       st.commentsBuf, st.annotsBuf, reqType, retType, stream⟩
                    .ok (m, flushMeta st)

/-- Method loop of Go `parser.service`. -/
def svcLoop : Nat → List Method → ParserSt → Except PErr (List Method × ParserSt)
  | 0, _, _ => .error .fuelOut
  | fuel + 1, methods, st =>
      if (tlPeek st).is .CloseCurly then .ok (methods, st)
      else
        match parseOneStep fuel st with
        | .error e => .error e
        | .ok (some st) => svcLoop fuel methods st
        | .ok none =>
            match parseMethodBody fuel st with
            | .error e => .error e
            | .ok (m, st) => svcLoop fuel (methods ++ [m]) st

/-- Go `parser.service`. -/
def serviceFn (fuel : Nat) (st : ParserSt) : Except PErr ParserSt :=
  let (start, st) := tlAdvance st
  if !(tlPeek st).is .Identifier then .error (tlError st "expected identifier")
  else
    let name := tlPeek st
    if fileIsDefined st.file name.value then .error (tlError st "already defined")
    else
      let st := (tlAdvance st).2
      if !(tlPeek st).is .OpenCurly then .error (tlError st "expected open curly")
      else
        let st := (tlAdvance st).2
        let sComments := st.commentsBuf
        let sAnnots := st.annotsBuf
        let st := flushMeta st
        match svcLoop fuel [] st with
        | .error e => .error e
        | .ok (methods, st) =>
            let (endTok, st) := tlAdvance st
            .ok { st with file := filePush st.file (.srvDecl ⟨offsetBetween start endTok, name.value, sComments, sAnnots, methods⟩) }

/-- Go `parser.messageOrService`. -/
def messageOrService (fuel : Nat) (st : ParserSt) : Except PErr ParserSt :=
  if !(tlPeek st).is .Identifier then .error (tlError st "expected identifier")
  else if (tlPeek st).value = "message" then messageFn fuel st
  else if (tlPeek st).value = "service" then serviceFn fuel st
  else if (tlPeek st).value = "import" then
    .error (tlError st "imports are only allowed in the beginning of the file")
  else .error (tlError st "unexpected identifier, expected message or service")

/-- Leading skip loop of Go `parser.parsePackage` (line breaks and comments
are consumed without being recorded). -/
def pkgSkipLoop : Nat → ParserSt → Except PErr ParserSt
  | 0, _ => .error .fuelOut
  | fuel + 1, st =>
      if (tlPeek st).is .LineBreak || (tlPeek st).is .Comment then
        pkgSkipLoop fuel (tlAdvance st).2
      else .ok st

/-- Dotted-name loop of Go `parser.parsePackage`. -/
def pkgNameLoop : Nat → ParserSt → List String → Except PErr (List String × ParserSt)
  | 0, _, _ => .error .fuelOut
  | fuel + 1, st, pName =>
      if (tlPeek st).is .Identifier || (tlPeek st).is .Dot then
        let (t, st) := tlAdvance st
        pkgNameLoop fuel st (pName ++ [t.value])
      else .ok (pName, st)

/-- Go `parser.parsePackage`. -/
def parsePackage (fuel : Nat) (st : ParserSt) : Except PErr ParserSt :=
  match pkgSkipLoop fuel st with
  | .error e => .error e
  | .ok st =>
      if !(tlPeek st).is .Identifier then .error (tlError st "expected identifier")
      else if (tlPeek st).value ≠ "package" then
        .error (tlError st "unexpected token, expected package identifier")
      else
        let (start, st) := tlAdvance st
        let (first, st) := tlAdvance st
        match pkgNameLoop fuel st [first.value] with
        | .error e => .error e
        | .ok (pName, st) =>
            if !(tlPeek st).is .Semi then .error (tlError st "expected semicolon")
            else
              let (endTok, st) := tlAdvance st
              .ok { st with file := filePush st.file (.pkgDecl ⟨offsetBetween start endTok, pName.foldl (fun a b => a ++ b) ""⟩) }

/-- Trivia loop at the head of each round of Go `parser.parseImports`:
line breaks (with blank-line flushing) and comments (accumulated
unconditionally here) are consumed. -/
def importsTriviaLoop : Nat → ParserSt → Except PErr ParserSt
  | 0, _ => .error .fuelOut
  | fuel + 1, st =>
      if (tlPeek st).is .LineBreak then
        match tlPeekPrevious st with
        | .error e => .error e
        | .ok prev =>
            let st := if prev.is .LineBreak then flushMeta st else st
            importsTriviaLoop fuel (tlAdvance st).2
      else if (tlPeek st).is .Comment then
        let (t, st) := tlAdvance st
        importsTriviaLoop fuel (appendComment st t.value)
      else .ok st

/-- Go `parser.parseImports`. -/
def parseImportsLoop : Nat → ParserSt → Except PErr ParserSt
  | 0, _ => .error .fuelOut
  | fuel + 1, st =>
      match importsTriviaLoop fuel st with
      | .error e => .error e
      | .ok st =>
          if !(tlPeek st).is .Identifier then .ok st
          else if (tlPeek st).value ≠ "import" then .ok st
          else
            let st := flushMeta st
            let (start, st) := tlAdvance st
            if !(tlPeek st).is .StringElement then .error (tlError st "expected string")
            else
              let (pathTok, st) := tlAdvance st
              if fileIsImported st.file pathTok.value then
                .error (tlError st "duplicated import")
              else if !(tlPeek st).is .Semi then .error (tlError st "expected semicolon")
              else
                let (endTok, st) := tlAdvance st
                parseImportsLoop fuel
                  { st with file := filePush st.file (.impDecl ⟨offsetBetween start endTok, pathTok.value⟩) }

/-- Top-level declaration loop of Go `parser.run`. -/
def runDeclLoop : Nat → ParserSt → Except PErr ParserSt
  | 0, _ => .error .fuelOut
  | fuel + 1, st =>
      if (tlPeek st).is .EOF then .ok st
      else
        match parseOneStep fuel st with
        | .error e => .error e
        | .ok (some st) => runDeclLoop fuel st
        | .ok none =>
            match messageOrService fuel st with
            | .error e => .error e
            | .ok st => runDeclLoop fuel st

/-- The parse result: the built `File` plus the final comment/annotation
heaps (needed to dereference the slice headers stored in the nodes). -/
structure ParseOut where
  file : File
  commentsH : List (List String)
  annotsH : List (List AnnotationValue)

/-- Go `Parse` / `parser.run`: package clause, import block, then
declarations until EOF. -/
def parseTokens (fuel : Nat) (tokens : List Token) : Except PErr ParseOut :=
  let st0 : ParserSt := ⟨tokens, 0, [], nilSlice, [], nilSlice, emptyFile⟩
  match parsePackage fuel st0 with
  | .error e => .error e
  | .ok st =>
      match parseImportsLoop fuel st with
      | .error e => .error e
      | .ok st =>
          match runDeclLoop fuel st with
          | .error e => .error e
          | .ok st => .ok ⟨st.file, st.commentsH, st.annotsH⟩

/-- Scan-then-parse convenience used by the concrete theorems below
(`Scan` + `Parse` with generous fuel). -/
inductive PipeRes where
  | ok (out : ParseOut)
  | scanSynErr (msg : String) (line : Nat) (col : Nat)
  | scanPanic
  | parseFail (e : PErr)
  | fuelOut

/-- Run the scanner and, on success, the parser (fuel `1000`, ample for
every source used below). -/
def pipeline (src : String) : PipeRes :=
  match scanSource src with
  | .ok ts =>
      match parseTokens 1000 ts with
      | .ok out => .ok out
      | .error e => .parseFail e
  | .synErr m l c => .scanSynErr m l c
  | .panic => .scanPanic
  | .fuelOut => .fuelOut

end Yarp

namespace Yarp

/-! ### Read-out helpers

These dereference the slice headers held by emitted nodes against the
final heaps, for use in the theorems below. -/

/-- The `i`-th entry of the file tree as a message, if it is one. -/
def ParseOut.treeMsg (r : ParseOut) (i : Nat) : Option Message :=
  match r.file.tree.get? i with
  | some (.msgDecl m) => some m
  | _ => none

/-- Name of the `i`-th tree entry when it is a message. -/
def ParseOut.msgName (r : ParseOut) (i : Nat) : Option String :=
  (r.treeMsg i).map Message.name

/-- The comment lines attached to the `i`-th tree entry (a message), read
through the final comment heap. -/
def ParseOut.msgComments (r : ParseOut) (i : Nat) : Option (List String) :=
  (r.treeMsg i).map fun m => sliceRead r.commentsH m.comments

/-- The annotation values attached to the `i`-th tree entry (a message),
read through the final annotation heap. -/
def ParseOut.msgAnnots (r : ParseOut) (i : Nat) : Option (List AnnotationValue) :=
  (r.treeMsg i).map fun m => sliceRead r.annotsH m.annotations

/-- The type of field `j` of the message at tree index `i`. -/
def ParseOut.msgFieldTy (r : ParseOut) (i j : Nat) : Option Ty :=
  match r.treeMsg i with
  | some m =>
      match m.fields.get? j with
      | some (.fld f) => some f.ty
      | _ => none
  | none => none

/-- Message names of a pipeline result, in tree order. -/
def PipeRes.msgComments (r : PipeRes) (i : Nat) : Option (List String) :=
  match r with
  | .ok out => out.msgComments i
  | _ => none

/-- The field type at message `i`, field `j` of a pipeline result. -/
def PipeRes.msgFieldTy (r : PipeRes) (i j : Nat) : Option Ty :=
  match r with
  | .ok out => out.msgFieldTy i j
  | _ => none

/-- The annotation (name, values) pairs attached to message `i`. -/
def PipeRes.msgAnnotPairs (r : PipeRes) (i : Nat) : Option (List (String × List String)) :=
  match r with
  | .ok out => (out.msgAnnots i).map (List.map fun a => (a.name, a.value))
  | _ => none

/-- Whether the pipeline failed with a `ParseError` whose offending token
has the given element type and whose message is the given one. -/
def PipeRes.isParseErrAt (r : PipeRes) (el : Element) (msg : String) : Bool :=
  match r with
  | .parseFail (.parseErr t m) => t.typ = el && m = msg
  | _ => false

end Yarp

namespace Yarp

/-! ## File-set resolver (`fileset.go`)

The OS file system is modelled as a finite map from paths to entries
(regular file with contents, or directory); `filepath.Abs` needs a working
directory, carried in the configuration.  A nil `*File` (returned by
`findAndLoad` for an already-loaded path) is `none`; dereferencing it is a
panic. -/

/-- A file-system entry: directory or regular file with contents. -/
inductive FSEntry where
  | dir
  | fileE (content : String)
deriving DecidableEq, Repr

/-- Load configuration: file system and working directory. -/
structure LoadCfg where
  fs : List (String × FSEntry)
  cwd : String

/-- `os.Stat` on the modelled file system. -/
def fsStat (cfg : LoadCfg) (p : String) : Option FSEntry :=
  cfg.fs.lookup p

/-- Go `FileSet` state.  `messages` is the private fully-qualified-name
index; `Messages`/`Services` are the public output collections. -/
structure FileSet where
  loadedFiles : List String
  knownServices : List String
  packageName : String
  messages : List (String × Message)
  Messages : List Message
  Services : List Service

/-- Go `NewFileSet`. -/
def newFileSet : FileSet := ⟨[], [], "", [], [], []⟩

/-- Go `FileSet.isLoaded`. -/
def fsIsLoaded (f : FileSet) (path : String) : Bool :=
  f.loadedFiles.contains path

/-- `f.loadedFiles[p] = true` (map insert; inserting an existing key is a
no-op for the association list). -/
def fsMarkLoaded (f : FileSet) (p : String) : FileSet :=
  if f.loadedFiles.contains p then f else { f with loadedFiles := f.loadedFiles ++ [p] }

/-- Failures surfaced by `findAndLoad`: missing file, directory, open
failure, scan or parse error (a scanner panic is a separate outcome of
`FindRes`). -/
inductive FindErr where
  | notFound (path : String)
  | isDirectory (path : String)
  | openErr (path : String)
  | scanSyn (msg : String) (line : Nat) (col : Nat)
  | parseFail (e : PErr)
deriving DecidableEq, Repr

/-- Result of `findAndLoad`: the resolved path and parsed file (`none`
standing for Go's `("", nil, nil)` already-loaded skip), an error, or a
panic propagated out of the scanner. -/
inductive FindRes where
  | ok (finalPath : String) (file : Option File)
  | err (e : FindErr)
  | panic

/-- Go `FileSet.findAndLoad`: absolutise, skip when already loaded, stat
with one `.yarp`-extension retry, then open, scan and parse.  `fuel` feeds
the parser. -/
def findAndLoad (fuel : Nat) (cfg : LoadCfg) (f : FileSet) (path : String) : FindRes :=
  let s := pathAbs cfg.cwd path
  if fsIsLoaded f s then .ok "" none
  else
    let st0 := fsStat cfg s
    let exist0 := st0.isSome
    let isDir0 := st0 = some .dir
    let retried :=
      if !exist0 || isDir0 then
        let next := path ++ ".yarp"
        match fsStat cfg next with
        | some (.fileE c) => (some (FSEntry.fileE c), next, true)
        | _ => (st0, path, exist0)
      else (st0, s, true)
    let statE := retried.1
    let path1 := retried.2.1
    let exist1 := retried.2.2
    if !exist1 then .err (.notFound path1)
    else if statE = some .dir then .err (.isDirectory path1)
    else
      match fsStat cfg path1 with
      | some (.fileE content) =>
          match scanSource content with
          | .ok ts =>
              match parseTokens fuel ts with
              | .ok out => .ok path1 (some out.file)
              | .error e => .err (.parseFail e)
          | .synErr m l c => .err (.scanSyn m l c)
          | .panic => .panic
          | .fuelOut => .panic
      | _ => .err (.openErr path1)

/-- Errors surfaced by `FileSet.Load` and `processImports`. -/
inductive LoadError where
  | wrapped (path : String) (e : FindErr)
  | mixedPackages (path pkg1 pkg2 : String)
  | importNotFound (source path : String)
  | innerFind (e : FindErr)
  | duplicatedDefinition (fqn : String)
  | multipleServiceDecls (name path : String)
  | bug (path name : String)
deriving DecidableEq, Repr

/-- Outcome of a load: success, error, runtime panic, or model fuel
exhaustion. -/
inductive LoadOut where
  | ok
  | err (e : LoadError)
  | panic
  | fuelOut
deriving DecidableEq, Repr

/-- Go `FileSet.registerMessage`: insert under the declaring file's
fully-qualified name, rejecting duplicates. -/
def registerMessage (f : FileSet) (file : File) (m : Message) : Except LoadError FileSet :=
  let fqn := file.pkg ++ "." ++ m.name
  if (f.messages.lookup fqn).isSome then .error (.duplicatedDefinition fqn)
  else .ok { f with messages := f.messages ++ [(fqn, m)] }

/-- The declared-message loop of Go `FileSet.Load`: append to the public
collection first, then register (so a duplicate error leaves the appended
message behind). -/
def loadMessages (f : FileSet) (file : File) (finalPath : String) :
    List String → LoadOut × FileSet
  | [] => (.ok, f)
  | n :: rest =>
      match fileMessageByName file n with
      | none => (.err (.bug finalPath n), f)
      | some m =>
          let f := { f with Messages := f.Messages ++ [m] }
          match registerMessage f file m with
          | .error e => (.err e, f)
          | .ok f => loadMessages f file finalPath rest

/-- The declared-service loop shared by Go `FileSet.Load` and
`processImports`: check the set-wide known-service registry, then append. -/
def loadServices (f : FileSet) (file : File) (finalPath : String) :
    List String → LoadOut × FileSet
  | [] => (.ok, f)
  | n :: rest =>
      match fileServiceByName file n with
      | none => (.err (.bug finalPath n), f)
      | some s =>
          if f.knownServices.contains n then (.err (.multipleServiceDecls n finalPath), f)
          else
            loadServices { f with knownServices := f.knownServices ++ [n],
                                  Services := f.Services ++ [s] } file finalPath rest

/-- The declared-message loop of Go `processImports`: register into the
index, and additionally expose in the public collection only when the
declaring file's package matches the set's. -/
def registerImportedMessages (f : FileSet) (imported : File) (finalPath : String) :
    List String → LoadOut × FileSet
  | [] => (.ok, f)
  | n :: rest =>
      match fileMessageByName imported n with
      | none => (.err (.bug finalPath n), f)
      | some msg =>
          match registerMessage f imported msg with
          | .error e => (.err e, f)
          | .ok f =>
              let f := if imported.pkg = f.packageName then
                         { f with Messages := f.Messages ++ [msg] }
                       else f
              registerImportedMessages f imported finalPath rest

/-- Go `FileSet.processImports`, iterating the importing file's import
paths (passed explicitly).  Each import is resolved relative to the
importing file's directory; an already-loaded import comes back as a nil
file, which the recursive call dereferences — a panic. -/
def processImports : Nat → LoadCfg → FileSet → String → List String → LoadOut × FileSet
  | 0, _, f, _, _ => (.fuelOut, f)
  | _ + 1, _, f, _, [] => (.ok, f)
  | fuel + 1, cfg, f, path, i :: rest =>
      let pwd := pathDir path
      let target := pathAbs cfg.cwd (pathJoin pwd i)
      match findAndLoad (fuel + 1) cfg f target with
      | .panic => (.panic, f)
      | .err (.notFound p) => (.err (.importNotFound path p), f)
      | .err e => (.err (.innerFind e), f)
      | .ok finalPath importedOpt =>
          let f := fsMarkLoaded f finalPath
          match importedOpt with
          | none => (.panic, f)
          | some imported =>
              match processImports fuel cfg f finalPath imported.importedFiles with
              | (.ok, f) =>
                  match registerImportedMessages f imported finalPath imported.declaredMessages with
                  | (.ok, f) =>
                      if imported.pkg = f.packageName then
                        match loadServices f imported finalPath imported.declaredServices with
                        | (.ok, f) => processImports fuel cfg f path rest
                        | r => r
                      else processImports fuel cfg f path rest
                  | r => r
              | r => r

/-- Registration phase of Go `FileSet.Load` (after the package check):
imports first, then own messages, then own services. -/
def fsLoadRest (fuel : Nat) (cfg : LoadCfg) (f : FileSet) (finalPath : String)
    (file : File) : LoadOut × FileSet :=
  match processImports fuel cfg f finalPath file.importedFiles with
  | (.ok, f) =>
      match loadMessages f file finalPath file.declaredMessages with
      | (.ok, f) => loadServices f file finalPath file.declaredServices
      | r => r
  | r => r

/-- Go `FileSet.Load`.  Note the nil-file skip from `findAndLoad` is not
handled: the package check dereferences the nil pointer. -/
def fsLoad (fuel : Nat) (cfg : LoadCfg) (f : FileSet) (path : String) : LoadOut × FileSet :=
  match findAndLoad fuel cfg f path with
  | .panic => (.panic, f)
  | .err e => (.err (.wrapped path e), f)
  | .ok finalPath fileOpt =>
      let f := fsMarkLoaded f finalPath
      match fileOpt with
      | none => (.panic, f)
      | some file =>
          if f.packageName = "" then
            fsLoadRest fuel cfg { f with packageName := file.pkg } finalPath file
          else if f.packageName ≠ file.pkg then
            (.err (.mixedPackages path f.packageName file.pkg), f)
          else fsLoadRest fuel cfg f finalPath file

end Yarp

namespace Yarp

/-! ## Reference model for the string-literal loop

Used by the (amended) claim about string scanning: a list-based
restatement of the loop's behaviour, to be proved equivalent to the
index-based `stringLoop` above. -/

/-- Outcome of scanning a string-literal body, counted in consumed runes:
`closed k` means the terminating quote sits `k` runes in; `failed k` means
the scan died (newline or end of input) after consuming `k` runes. -/
inductive BodyRes where
  | closed (k : Nat)
  | failed (k : Nat)
deriving DecidableEq, Repr

/-- Shift a body outcome by one consumed rune. -/
def bodyBump : BodyRes → BodyRes
  | .closed k => .closed (k + 1)
  | .failed k => .failed (k + 1)

/-- List-based restatement of the string-literal loop: a quote seen with
the escape flag clear terminates; a quote seen with it set is consumed and
clears it; a backslash is consumed and sets it; a newline or the end of
the input fails; anything else is consumed leaving the flag alone. -/
def stringBodySpec : List Char → Bool → BodyRes
  | [], _ => .failed 0
  | c :: rest, esc =>
      if c = '"' then
        if esc then bodyBump (stringBodySpec rest false) else .closed 0
      else if c = '\\' then bodyBump (stringBodySpec rest true)
      else if c = '\n' then .failed 0
      else bodyBump (stringBodySpec rest esc)

/-! ## Pointer model for `AnnotationCollection.FindByName`

`FindByName` ranges over the collection with `for _, v := range a` — each
iteration copies the element into the loop variable `v` — and returns
`&v` on the first name match.  To make the pointer discipline visible the
collection is placed in an explicit memory: its elements occupy the cells
`base, base+1, …, base+len-1` of `mem.cells`, and the escaping loop
variable of the matching iteration is a freshly allocated cell at the end
of memory.  Writing through the returned pointer therefore hits the fresh
cell, never the collection's cells. -/

/-- A flat memory of annotation-value cells. -/
structure AMem where
  cells : List AnnotationValue

/-- Write through a pointer (cell index). -/
def memWrite (m : AMem) (p : Nat) (x : AnnotationValue) : AMem :=
  ⟨m.cells.set p x⟩

/-- Read the collection occupying cells `base, …, base+len-1`. -/
def memReadColl (m : AMem) (base len : Nat) : List AnnotationValue :=
  (m.cells.drop base).take len

/-- Go `AnnotationCollection.FindByName` over the memory model: scan the
`len` elements starting at `base`; on the first match, allocate a fresh
cell holding a copy of the element (the escaping range variable `v`) and
return a pointer to it. -/
def findByNameMem (m : AMem) (base : Nat) (name : String) : Nat → AMem × Option Nat
  | 0 => (m, none)
  | len + 1 =>
      let v := m.cells.getD base default
      if v.name = name then (⟨m.cells ++ [v]⟩, some m.cells.length)
      else findByNameMem m (base + 1) name len

/-! ## Concrete scenario constants used by the claim theorems -/

/-- A file whose only message holds a `map<string,string>` field. -/
def mapFieldSrc : String :=
  "package a;\nmessage M \x7b\nf map<string,string> = 0;\n\x7d\n"

/-- Two messages, each preceded by its own comment block, separated by
blank lines. -/
def twoMsgSrc : String :=
  "package a;\n\n# one\nmessage A \x7b\n\x7d\n\n# two\nmessage B \x7b\n\x7d\n"

/-- `twoMsgSrc` truncated right after the first message: the state of the
parse at the moment message `A` was emitted. -/
def oneMsgSrc : String :=
  "package a;\n\n# one\nmessage A \x7b\n\x7d\n"

/-- An annotation with parenthesised values directly after its name. -/
def annotDirectSrc : String :=
  "package a;\n@opt(x, y) message M \x7b\n\x7d\n"

/-- File system for the duplicate-definition scenario: two files of one
package, the second re-declaring message `A` after a fresh `B`. -/
def dupCfg : LoadCfg :=
  ⟨[("/f1.yarp", .fileE "package a;\nmessage A \x7b\n\x7d\n"),
    ("/f2.yarp", .fileE "package a;\nmessage B \x7b\n\x7d\nmessage A \x7b\n\x7d\n")], "/"⟩

/-- File system for the cross-package import scenario: the root (package
`a`) imports a file declaring package `b`. -/
def crossPkgCfg : LoadCfg :=
  ⟨[("/r.yarp", .fileE "package a;\nimport \"b.yarp\";\nmessage R \x7b\n\x7d\n"),
    ("/b.yarp", .fileE "package b;\nmessage X \x7b\n\x7d\n")], "/"⟩

/-- File system with one loadable file, for the double-load scenario. -/
def oneFileCfg : LoadCfg :=
  ⟨[("/a.yarp", .fileE "package a;\nmessage A \x7b\n\x7d\n")], "/"⟩


/-- File system for the diamond-import scenario: the root imports two
files that both import the same fourth file. -/
def diamondCfg : LoadCfg :=
  ⟨[("/r.yarp", .fileE "package a;\nimport \"c.yarp\";\nimport \"d.yarp\";\n"),
    ("/c.yarp", .fileE "package a;\nimport \"b.yarp\";\n"),
    ("/d.yarp", .fileE "package a;\nimport \"b.yarp\";\n"),
    ("/b.yarp", .fileE "package a;\nmessage B \x7b\n\x7d\n")], "/"⟩

/-- File system for the mixed-packages scenario: two root-loadable files
declaring different packages. -/
def mixedCfg : LoadCfg :=
  ⟨[("/f1.yarp", .fileE "package a;\nmessage A \x7b\n\x7d\n"),
    ("/f3.yarp", .fileE "package c;\nmessage C \x7b\n\x7d\n")], "/"⟩

/-- The set after loading the package-`a` root of `mixedCfg`. -/
def mixedSet : FileSet := (fsLoad 1000 mixedCfg newFileSet "/f1.yarp").2

/-- The parsed package-`c` file of `mixedCfg`, extracted from
`findAndLoad` (used to discharge hypotheses concretely). -/
def mixedFile : File :=
  match findAndLoad 1000 mixedCfg mixedSet "/f3.yarp" with
  | .ok _ (some fl) => fl
  | _ => emptyFile

/-- An empty file system. -/
def emptyCfg : LoadCfg := ⟨[], "/"⟩

end Yarp

namespace Yarp

/-! # Theorems

Shared helper lemmas first, then one theorem per claim (with witnesses and
counterexamples as required). -/

/-- `fsMarkLoaded` changes only `loadedFiles`. -/
theorem fsMarkLoaded_packageName (f : FileSet) (p : String) :
    (fsMarkLoaded f p).packageName = f.packageName := by
  unfold fsMarkLoaded; split <;> rfl

/-- `fsMarkLoaded` leaves the public message collection alone. -/
theorem fsMarkLoaded_Messages (f : FileSet) (p : String) :
    (fsMarkLoaded f p).Messages = f.Messages := by
  unfold fsMarkLoaded; split <;> rfl

/-- `fsMarkLoaded` leaves the public service collection alone. -/
theorem fsMarkLoaded_Services (f : FileSet) (p : String) :
    (fsMarkLoaded f p).Services = f.Services := by
  unfold fsMarkLoaded; split <;> rfl

/-- `fsMarkLoaded` leaves the fully-qualified-name index alone. -/
theorem fsMarkLoaded_messages (f : FileSet) (p : String) :
    (fsMarkLoaded f p).messages = f.messages := by
  unfold fsMarkLoaded; split <;> rfl

/-- C1 (code bug): a field written `map<string,string>` does not parse:
`parseMapType` never consumes the `<` token (unlike `parseArrayType`), so
`parseMapKey` immediately fails with `unexpected token` at the `<`; the
same source with `array<string>` parses fine, isolating the missing
advance.  The repository's own fixture (`test/fixture/contacts.yarp`,
asserted error-free by `TestParserDocsExample` and `TestFileSet`) contains
such a field. -/
theorem c1_map_field_rejected :
    (pipeline mapFieldSrc).isParseErrAt .OpenAngled "unexpected token" = true ∧
    (pipeline "package a;\nmessage M \x7b\nf array<string> = 0;\n\x7d\n").msgFieldTy 1 0
      = some (.array (.primitive .String)) := by decide

/-- C2 (code bug): scanning is not total.  A comment or annotation that
reaches the end of the input without its delimiter (`\n` resp. a space)
keeps calling `advance` because `peek` returns NUL past the end, and
`advance` then indexes one past the end of the rune array — a runtime
panic, not a returned `SyntaxError`.  A newline-terminated comment scans
normally. -/
theorem c2_scan_can_panic_at_eof :
    scanSource "#x" = .panic ∧ scanSource "@x" = .panic ∧
    scanSource "# x\n" = .ok [⟨.Comment, "x", 1, 2⟩, ⟨.LineBreak, "\n", 2, 2⟩, ⟨.EOF, "", 2, 2⟩] := by
  decide

/-- C4 (code bug): loading an already-loaded path is not a no-op.
`findAndLoad` returns `("", nil, nil)` for it, and `Load` then reads
`file.Package` from the nil pointer — a panic; a diamond import reaches
the same nil through `processImports`.  The first conjunct shows the
first load succeeds, the second that reloading the same path panics, the
third that a diamond import panics. -/
theorem c4_reload_and_diamond_panic :
    (fsLoad 1000 oneFileCfg newFileSet "/a.yarp").1 = .ok ∧
    (fsLoad 1000 oneFileCfg (fsLoad 1000 oneFileCfg newFileSet "/a.yarp").2 "/a.yarp").1
      = .panic ∧
    (fsLoad 1000 diamondCfg newFileSet "/r.yarp").1 = .panic := by decide

/-- C8 (code bug): emitted nodes are not immutable.  In `twoMsgSrc`,
message `A` is emitted carrying the comment block `["one"]` (the first
conjunct shows exactly this by stopping the source right after `A`), but
the comment accumulated later for message `B` is appended into the
re-sliced scratch buffer whose backing array `A`'s `Comments` still
references, overwriting its entry in place: at the end of the full parse
`A`'s comments read `["two"]`. -/
theorem c8_emitted_comments_overwritten :
    (pipeline oneMsgSrc).msgComments 1 = some ["one"] ∧
    (pipeline twoMsgSrc).msgComments 1 = some ["two"] ∧
    (pipeline twoMsgSrc).msgComments 2 = some ["two"] := by decide

/-- C3 (counterexample): a failed `Load` can leave the set half
populated.  After loading `/f1.yarp` (package `a`, message `A`), loading
`/f2.yarp` (messages `B` then `A`) fails with a duplicate-definition
error for `a.A` — but by then `B` and the offending second `A` have
already been appended to the public `Messages`, and `a.B` registered in
the index. -/
theorem c3_failed_load_leaves_partial_state :
    (fsLoad 1000 dupCfg newFileSet "/f1.yarp").2.Messages.map Message.name = ["A"] ∧
    (fsLoad 1000 dupCfg newFileSet "/f1.yarp").2.messages.map Prod.fst = ["a.A"] ∧
    (fsLoad 1000 dupCfg (fsLoad 1000 dupCfg newFileSet "/f1.yarp").2 "/f2.yarp").1
      = .err (.duplicatedDefinition "a.A") ∧
    (fsLoad 1000 dupCfg (fsLoad 1000 dupCfg newFileSet "/f1.yarp").2 "/f2.yarp").2.Messages.map
        Message.name = ["A", "B", "A"] ∧
    (fsLoad 1000 dupCfg (fsLoad 1000 dupCfg newFileSet "/f1.yarp").2 "/f2.yarp").2.messages.map
        Prod.fst = ["a.A", "a.B"] := by decide

/-- C3 (amended): errors raised before any registration do leave the
observable state untouched: a `findAndLoad` failure returns with the set
exactly as it was, and a root mixed-package error leaves `Messages`,
`Services` and the name index unchanged (only the private
`loadedFiles` set has grown). -/
theorem c3_pre_registration_errors_preserve_outputs :
    (∀ (fuel : Nat) (cfg : LoadCfg) (f : FileSet) (path : String) (e : FindErr),
      findAndLoad fuel cfg f path = .err e →
      fsLoad fuel cfg f path = (.err (.wrapped path e), f)) ∧
    (∀ (fuel : Nat) (cfg : LoadCfg) (f : FileSet) (path finalPath : String) (file : File),
      findAndLoad fuel cfg f path = .ok finalPath (some file) →
      f.packageName ≠ "" → f.packageName ≠ file.pkg →
      (fsLoad fuel cfg f path).2.Messages = f.Messages ∧
      (fsLoad fuel cfg f path).2.Services = f.Services ∧
      (fsLoad fuel cfg f path).2.messages = f.messages) := by
  constructor
  · intro fuel cfg f path e h
    unfold fsLoad
    rw [h]
  · intro fuel cfg f path finalPath file h hne hdiff
    unfold fsLoad
    rw [h]
    simp only [fsMarkLoaded_packageName, if_neg hne, if_pos hdiff]
    simp [fsMarkLoaded_Messages, fsMarkLoaded_Services, fsMarkLoaded_messages]

/-- C3 witness: the pre-registration statement applied to a missing root
file on an empty file system. -/
theorem c3_pre_registration_witness :
    fsLoad 1000 emptyCfg newFileSet "/nope"
      = (.err (.wrapped "/nope" (.notFound "/nope")), newFileSet) :=
  c3_pre_registration_errors_preserve_outputs.1 1000 emptyCfg newFileSet "/nope"
    (.notFound "/nope") rfl

/-- C5 (counterexample): a transitively imported file with a different
package does not abort the load: the root (package `a`) imports a
package-`b` file, the load succeeds, the imported message feeds the index
as `b.X`, and only the root's own message reaches the public output. -/
theorem c5_cross_package_import_accepted :
    (fsLoad 1000 crossPkgCfg newFileSet "/r.yarp").1 = .ok ∧
    (fsLoad 1000 crossPkgCfg newFileSet "/r.yarp").2.packageName = "a" ∧
    (fsLoad 1000 crossPkgCfg newFileSet "/r.yarp").2.messages.map Prod.fst = ["b.X", "a.R"] ∧
    (fsLoad 1000 crossPkgCfg newFileSet "/r.yarp").2.Messages.map Message.name = ["R"] := by
  decide

/-- C5 (amended): the mixed-packages check guards only files passed
directly to `Load`: whenever `findAndLoad` resolves the requested root to
a file whose package differs from the set's established (non-empty)
package, `Load` aborts with `MixedPackagesError` naming both packages. -/
theorem c5_root_mixed_package_aborts (fuel : Nat) (cfg : LoadCfg) (f : FileSet)
    (path finalPath : String) (file : File)
    (hfind : findAndLoad fuel cfg f path = .ok finalPath (some file))
    (hne : f.packageName ≠ "") (hdiff : f.packageName ≠ file.pkg) :
    fsLoad fuel cfg f path
      = (.err (.mixedPackages path f.packageName file.pkg), fsMarkLoaded f finalPath) := by
  unfold fsLoad
  rw [hfind]
  simp only [fsMarkLoaded_packageName, if_neg hne, if_pos hdiff]

/-- C5 witness: the mixed-package abort on a concrete second root load. -/
theorem c5_root_mixed_package_witness :
    fsLoad 1000 mixedCfg mixedSet "/f3.yarp"
      = (.err (.mixedPackages "/f3.yarp" "a" "c"), fsMarkLoaded mixedSet "/f3.yarp") :=
  c5_root_mixed_package_aborts 1000 mixedCfg mixedSet "/f3.yarp" "/f3.yarp" mixedFile
    rfl (by decide) (by decide)

end Yarp

namespace Yarp

/-- The index-based string-literal loop agrees with its list-based
restatement `stringBodySpec`: starting at `current`, a `closed k` body
breaks at the quote `current + k`, a `failed k` body raises the
unterminated-string error with the cursor at `current + k`. -/
theorem stringLoop_spec (data : List Char) (fuel : Nat) :
    ∀ (current : Nat) (esc : Bool), data.length - current < fuel →
      stringLoop data fuel current esc =
        match stringBodySpec (data.drop current) esc with
        | .closed k => .brk (current + k)
        | .failed k => .unterminated (current + k) := by
  induction fuel with
  | zero => intro current esc h; omega
  | succ n ih =>
      intro current esc h
      by_cases hc : current < data.length
      · have hdrop : data.drop current = data[current] :: data.drop (current + 1) :=
          (List.getElem_cons_drop data current hc).symm
        rw [stringLoop, dif_pos hc, hdrop]
        by_cases hq : data[current] = '"'
        · by_cases he : esc
          · rw [if_pos hq, if_pos he, ih (current + 1) false (by omega)]
            simp only [stringBodySpec, hq, if_pos rfl, he, if_pos rfl]
            cases stringBodySpec (data.drop (current + 1)) false <;>
              simp [bodyBump] <;> omega
          · rw [if_pos hq, if_neg he]
            simp only [stringBodySpec, hq, if_pos rfl, he, if_neg]
            simp
        · by_cases hb : data[current] = '\\'
          · rw [if_neg hq, if_pos hb, ih (current + 1) true (by omega)]
            simp only [stringBodySpec, hq, if_neg, hb, if_pos rfl]
            cases stringBodySpec (data.drop (current + 1)) true <;>
              simp [bodyBump, hq] <;> omega
          · by_cases hn : data[current] = '\n'
            · rw [if_neg hq, if_neg hb, if_pos hn]
              simp [stringBodySpec, hq, hb, hn]
            · rw [if_neg hq, if_neg hb, if_neg hn, ih (current + 1) esc (by omega)]
              cases hres : stringBodySpec (data.drop (current + 1)) esc <;>
                simp [stringBodySpec, hq, hb, hn, hres, bodyBump] <;> omega
      · have hnil : data.drop current = [] := by
          apply List.drop_eq_nil_of_le
          omega
        rw [stringLoop, dif_neg hc, hnil]
        simp [stringBodySpec]

end Yarp

namespace Yarp

/-- C7 (counterexample): the literal `"a\b"` does not scan successfully
with the backslash preserved — it fails as unterminated.  The backslash
sets the escape flag, which only a quote clears, so the closing quote is
treated as escaped and consumed; the scan then runs off the end of the
input. -/
theorem c7_backslash_literal_unterminated :
    scanSource "\"a\\b\"" = .synErr "unterminated string" 1 6 := by decide

/-- C7 (amended): full characterisation of the string routine whenever at
least one rune follows the opening quote (with no rune after it, the
routine's unconditional first `advance` indexes past the end).  That first
rune is consumed without inspection; from the next rune on, the loop
follows `stringBodySpec`: a backslash sets an escape flag that only a
quote clears, a quote seen with the flag set is consumed into the literal,
the literal ends at the first quote seen with the flag clear, and a bare
newline or the end of input raises the unterminated-string error.  The
stored value is the consumed run with every backslash-quote pair replaced
by a quote; positions come from `goPos` as recorded at entry/error. -/
theorem c7_scan_string_characterised (data : List Char) (start : Nat)
    (h1 : start + 1 < data.length) :
    scanString data start =
      match stringBodySpec (data.drop (start + 2)) false with
      | .closed k =>
          .ok [⟨.StringElement,
                String.mk (replaceEscQuote (sub data (start + 1) (start + 2 + k))),
                (goPos data (start + 1)).1, (goPos data (start + 1)).2⟩]
            (start + 3 + k)
      | .failed k =>
          .synErr "unterminated string"
            (goPos data (start + 2 + k)).1 (goPos data (start + 2 + k)).2 := by
  unfold scanString
  rw [if_pos h1, stringLoop_spec data (data.length + 2) (start + 2) false (by omega)]
  cases hres : stringBodySpec (data.drop (start + 2)) false with
  | closed k =>
      have harith : start + 2 + k + 1 = start + 3 + k := by omega
      simp [harith]
  | failed k => simp

/-- C7 witness: the characterisation applied to the two-character literal
`"ab"` at offset 0 (closed body of length 1 starting after the
unconditionally consumed `a`). -/
theorem c7_scan_string_witness :
    scanString "\"ab\"".toList 0 = .ok [⟨.StringElement, "ab", 1, 2⟩] 4 :=
  (c7_scan_string_characterised "\"ab\"".toList 0 (by decide)).trans (by decide)

end Yarp

namespace Yarp

/-- C9 (counterexample): the token for the one-character input `a` — whose
first character sits at line 1, column 1 — is recorded at column 2. -/
theorem c9_first_token_not_at_column_one :
    scanSource "a" = .ok [⟨.Identifier, "a", 1, 2⟩, ⟨.EOF, "", 1, 2⟩] ∧
    (⟨.Identifier, "a", 1, 2⟩ : Token).col ≠ 1 := by decide

/-- C9 (amended): every token emitted by the scan step that starts at
offset `start` records `pos` evaluated at `start + 1` — one rune past the
token's first character (`Run` calls `scanToken` with `s.start = s.current`
at the token's first rune, and every branch computes the position after
the initial `advance`).  At the start of the input this yields (1, 2), not
(1, 1); the EOF token likewise records the position one past the last
consumed rune. -/
theorem c9_token_records_pos_one_past_start (data : List Char) (start : Nat)
    (ts : List Token) (cur : Nat) (h : scanToken data start = .ok ts cur) :
    ∀ t ∈ ts, t.line = (goPos data (start + 1)).1 ∧ t.col = (goPos data (start + 1)).2 := by
  unfold scanToken at h
  by_cases hs : start < data.length
  · rw [dif_pos hs] at h
    simp only [] at h
    repeat' split at h
    all_goals first
      | exact StepRes.noConfusion h
      | (cases h
         intro t ht
         simp only [List.mem_singleton] at ht
         subst ht
         exact ⟨rfl, rfl⟩)
      | (cases h
         intro t ht
         exact absurd ht (List.not_mem_nil t))
      | (unfold scanString at h
         simp only [] at h
         repeat' split at h
         all_goals first
           | exact StepRes.noConfusion h
           | (cases h
              intro t ht
              simp only [List.mem_singleton] at ht
              subst ht
              exact ⟨rfl, rfl⟩))
  · rw [dif_neg hs] at h
    exact StepRes.noConfusion h

/-- C9 witness: the amended statement applied to the scan step at offset 0
of the input `a`, instantiated at the emitted identifier token. -/
theorem c9_token_pos_witness :
    (⟨.Identifier, "a", 1, 2⟩ : Token).line = (goPos "a".toList 1).1 ∧
    (⟨.Identifier, "a", 1, 2⟩ : Token).col = (goPos "a".toList 1).2 :=
  c9_token_records_pos_one_past_start "a".toList 0 [⟨.Identifier, "a", 1, 2⟩] 1 (by decide)
    ⟨.Identifier, "a", 1, 2⟩ (by simp)

end Yarp

namespace Yarp

/-- Dropping past a known decomposition: if the tokens from `c` are
`l ++ l2`, the tokens from `c + l.length` are `l2`. -/
theorem drop_add_of_drop (toks : List Token) (c : Nat) (l l2 : List Token)
    (h : toks.drop c = l ++ l2) : toks.drop (c + l.length) = l2 := by
  have h1 : toks.drop (c + l.length) = (toks.drop c).drop l.length := by
    rw [List.drop_drop]
  rw [h1, h, List.drop_left]

/-- Specialisation of `drop_add_of_drop` to one token. -/
theorem drop_cons_inv (toks : List Token) (c : Nat) (t : Token) (l : List Token)
    (h : toks.drop c = t :: l) : toks.drop (c + 1) = l :=
  drop_add_of_drop toks c [t] l (by simpa using h)

/-- The parser cursor's peek, read off a decomposition of the remaining
tokens. -/
theorem tlPeek_of_drop (st : ParserSt) (t : Token) (l : List Token)
    (h : st.tokens.drop st.current = t :: l) : tlPeek st = t := by
  have hlt : st.current < st.tokens.length := by
    by_contra hge
    rw [List.drop_eq_nil_of_le (by omega)] at h
    exact List.noConfusion h
  have hd : st.tokens.drop st.current
      = st.tokens[st.current] :: st.tokens.drop (st.current + 1) :=
    (List.getElem_cons_drop st.tokens st.current hlt).symm
  rw [hd] at h
  unfold tlPeek
  rw [dif_pos hlt]
  exact (List.cons.injEq _ _ _ _ ▸ h).1

/-- Projection of a cursor update. -/
theorem update_current (st : ParserSt) (a : Nat) :
    ({ st with current := a } : ParserSt).current = a := rfl

/-- Composition of cursor updates. -/
theorem update_update (st : ParserSt) (a b : Nat) :
    ({ { st with current := a } with current := b } : ParserSt)
      = { st with current := b } := rfl

/-- Walking the annotation-value loop over a run `ws` of tokens that are
neither commas nor closing parens, up to a delimiter `d`: if `d` is the
closing paren the loop returns with every token text of `ws` appended to
the current run and the cursor on `d`; if `d` is a comma and no run has
been committed yet, the loop fails with `expected value` at `d`. -/
theorem annotValsLoop_walk (ws : List Token) :
    ∀ (fuel : Nat) (st : ParserSt) (vals val : List String) (d : Token) (rest : List Token),
      st.tokens.drop st.current = ws ++ d :: rest →
      (∀ w ∈ ws, w.typ ≠ .Comma ∧ w.typ ≠ .CloseParen) →
      ws.length + 1 ≤ fuel →
      (d.typ = .CloseParen →
        annotValsLoop fuel st vals val
          = .ok (vals, val ++ ws.map Token.value,
                 { st with current := st.current + ws.length })) ∧
      (d.typ = .Comma → vals = [] →
        annotValsLoop fuel st vals val = .error (.parseErr d "expected value")) := by
  induction ws with
  | nil =>
      intro fuel st vals val d rest hdrop hws hfuel
      obtain ⟨n, rfl⟩ : ∃ n, fuel = n + 1 := ⟨fuel - 1, by omega⟩
      have hpeek : tlPeek st = d := tlPeek_of_drop st d rest (by simpa using hdrop)
      constructor
      · intro hcp
        rw [annotValsLoop]
        simp [hpeek, Token.is, hcp]
      · intro hcm hvals
        rw [annotValsLoop]
        simp [hpeek, Token.is, hcm, hvals, tlError]
  | cons w ws ih =>
      intro fuel st vals val d rest hdrop hws hfuel
      obtain ⟨n, rfl⟩ : ∃ n, fuel = n + 1 := ⟨fuel - 1, by omega⟩
      have hpeek : tlPeek st = w := tlPeek_of_drop st w (ws ++ d :: rest) (by simpa using hdrop)
      have hw := hws w (by simp)
      have hdrop2 : st.tokens.drop (st.current + 1) = ws ++ d :: rest :=
        drop_cons_inv st.tokens st.current w (ws ++ d :: rest) (by simpa using hdrop)
      have hrec := ih n { st with current := st.current + 1 } vals (val ++ [w.value]) d rest
        (by simpa using hdrop2) (fun x hx => hws x (by simp [hx])) (by simp at hfuel ⊢; omega)
      have harith : st.current + 1 + ws.length = st.current + (w :: ws).length := by
        simp
        omega
      constructor
      · intro hcp
        rw [annotValsLoop]
        simp only [hpeek, Token.is, tlAdvance]
        rw [if_neg (by simp [hw.2]), if_neg (by simp [hw.1])]
        rw [hrec.1 hcp]
        rw [update_current, update_update, harith]
        simp [List.append_assoc]
      · intro hcm hvals
        rw [annotValsLoop]
        simp only [hpeek, Token.is, tlAdvance]
        rw [if_neg (by simp [hw.2]), if_neg (by simp [hw.1])]
        rw [hrec.2 hcm hvals]

end Yarp

namespace Yarp

/-- C6 (counterexample): an annotation with values in parentheses written
directly after the name never yields the claimed `AnnotationValue`.  The
scanner's annotation rule consumes until the first space, so `@opt(x, y)`
scans as a single annotation token named `opt(x,`; the subsequent tokens
then derail the parser, which rejects the file instead of attaching
`AnnotationValue{Name: "opt", Value: ["x", "y"]}` to the following
declaration. -/
theorem c6_direct_annotation_values_fail :
    scanSource "@opt(x, y) z"
      = .ok [⟨.AnnotationTk, "opt(x,", 1, 2⟩, ⟨.Identifier, "y", 1, 10⟩,
             ⟨.CloseParen, ")", 1, 11⟩, ⟨.Identifier, "z", 1, 13⟩, ⟨.EOF, "", 1, 13⟩] ∧
    (pipeline annotDirectSrc).isParseErrAt .Identifier
      "unexpected identifier, expected message or service" = true := by decide

/-- C6 (amended): parenthesised annotation values work only when a space
separates the name from the `(` (so the scanner ends the name at the
space), the parser then fails to consume the `(` — it lands in the first
value run — and any comma aborts the parse.  Precisely: for an annotation
token followed by an open paren, a comma/close-paren-free token run `ts`
and a close paren, `parseOne` accumulates one `AnnotationValue` carrying
the annotation token's text as name and the single value obtained by
joining the open paren's text and the run's texts with spaces; with a
comma after `ts` instead, `parseOne` fails with `expected value` at the
comma. -/
theorem c6_spaced_annotation_values :
    (∀ (fuel : Nat) (st : ParserSt) (ann paren cp : Token) (ts rest : List Token),
      st.tokens.drop st.current = ann :: paren :: (ts ++ cp :: rest) →
      ann.typ = .AnnotationTk → paren.typ = .OpenParen → cp.typ = .CloseParen →
      (∀ w ∈ ts, w.typ ≠ .Comma ∧ w.typ ≠ .CloseParen) →
      ts.length + 2 ≤ fuel →
      parseOneStep fuel st
        = .ok (some (appendAnnot { st with current := st.current + ts.length + 3 }
            ⟨offsetBetween ann cp, ann.value,
             [joinSpace (paren.value :: ts.map Token.value)]⟩))) ∧
    (∀ (fuel : Nat) (st : ParserSt) (ann paren cm : Token) (ts rest : List Token),
      st.tokens.drop st.current = ann :: paren :: (ts ++ cm :: rest) →
      ann.typ = .AnnotationTk → paren.typ = .OpenParen → cm.typ = .Comma →
      (∀ w ∈ ts, w.typ ≠ .Comma ∧ w.typ ≠ .CloseParen) →
      ts.length + 2 ≤ fuel →
      parseOneStep fuel st = .error (.parseErr cm "expected value")) := by
  have walkSetup : ∀ (st : ParserSt) (ann paren d : Token) (ts rest : List Token),
      st.tokens.drop st.current = ann :: paren :: (ts ++ d :: rest) →
      paren.typ = .OpenParen →
      (∀ w ∈ ts, w.typ ≠ .Comma ∧ w.typ ≠ .CloseParen) →
      ({ st with current := st.current + 1 } : ParserSt).tokens.drop
          ({ st with current := st.current + 1 } : ParserSt).current
        = (paren :: ts) ++ d :: rest ∧
      (∀ w ∈ paren :: ts, w.typ ≠ .Comma ∧ w.typ ≠ .CloseParen) := by
    intro st ann paren d ts rest hdrop hparen hts
    constructor
    · simpa using drop_cons_inv st.tokens st.current ann (paren :: (ts ++ d :: rest)) hdrop
    · intro w hw
      rcases List.mem_cons.mp hw with rfl | hmem
      · simp [hparen]
      · exact hts w hmem
  constructor
  · intro fuel st ann paren cp ts rest hdrop hann hparen hcp hts hfuel
    have hpeek : tlPeek st = ann := tlPeek_of_drop st ann _ hdrop
    obtain ⟨hdrop1, hws⟩ := walkSetup st ann paren cp ts rest hdrop hparen hts
    have hpeek1 : tlPeek ({ st with current := st.current + 1 } : ParserSt) = paren :=
      tlPeek_of_drop _ paren _ (by simpa using hdrop1)
    have hwalk := (annotValsLoop_walk (paren :: ts) fuel
      { st with current := st.current + 1 } [] [] cp rest hdrop1 hws
      (by simp at hfuel ⊢; omega)).1 hcp
    have hdropcp : st.tokens.drop (st.current + (ts.length + 2)) = cp :: rest := by
      have h0 := drop_add_of_drop st.tokens st.current (ann :: paren :: ts) (cp :: rest)
        (by simpa using hdrop)
      have e : st.current + (ann :: paren :: ts).length = st.current + (ts.length + 2) := by
        simp only [List.length_cons]
      rwa [e] at h0
    have hpeekcp : tlPeek ({ st with current := st.current + 1 + (paren :: ts).length } :
        ParserSt) = cp := by
      apply tlPeek_of_drop _ cp rest
      simp only [update_current]
      have harith : st.current + 1 + (paren :: ts).length = st.current + (ts.length + 2) := by
        simp only [List.length_cons]
        omega
      rw [harith]
      exact hdropcp
    unfold parseOneStep
    rw [hpeek, hann]
    simp only [tlAdvance, hpeek]
    rw [if_pos (by simp [hpeek1, Token.is, hparen])]
    rw [update_current, update_update] at hwalk
    rw [hwalk]
    rw [update_current, update_update] at hpeekcp
    simp only [List.nil_append, List.map_cons, List.length_cons, List.length_map]
    rw [if_pos (by simp)]
    simp only [List.length_cons] at hpeekcp
    rw [hpeekcp]
    have harith2 : st.current + 1 + (ts.length + 1) + 1 = st.current + ts.length + 3 := by omega
    rw [harith2]
  · intro fuel st ann paren cm ts rest hdrop hann hparen hcm hts hfuel
    have hpeek : tlPeek st = ann := tlPeek_of_drop st ann _ hdrop
    obtain ⟨hdrop1, hws⟩ := walkSetup st ann paren cm ts rest hdrop hparen hts
    have hpeek1 : tlPeek ({ st with current := st.current + 1 } : ParserSt) = paren :=
      tlPeek_of_drop _ paren _ (by simpa using hdrop1)
    have hwalk := (annotValsLoop_walk (paren :: ts) fuel
      { st with current := st.current + 1 } [] [] cm rest hdrop1 hws
      (by simp at hfuel ⊢; omega)).2 hcm rfl
    unfold parseOneStep
    rw [hpeek, hann]
    simp only [tlAdvance, hpeek]
    rw [if_pos (by simp [hpeek1, Token.is, hparen])]
    rw [hwalk]

end Yarp

namespace Yarp

/-- C6 witness: the amended statement applied to the token runs of
`@opt (x)` (success, value `( x`) and `@opt (x, …` (the comma aborts). -/
theorem c6_spaced_annotation_witness :
    parseOneStep 3 ⟨[⟨.AnnotationTk, "opt", 1, 2⟩, ⟨.OpenParen, "(", 1, 6⟩,
        ⟨.Identifier, "x", 1, 7⟩, ⟨.CloseParen, ")", 1, 8⟩, ⟨.EOF, "", 1, 9⟩],
        0, [], nilSlice, [], nilSlice, emptyFile⟩
      = .ok (some (appendAnnot ⟨[⟨.AnnotationTk, "opt", 1, 2⟩, ⟨.OpenParen, "(", 1, 6⟩,
          ⟨.Identifier, "x", 1, 7⟩, ⟨.CloseParen, ")", 1, 8⟩, ⟨.EOF, "", 1, 9⟩],
          4, [], nilSlice, [], nilSlice, emptyFile⟩
          ⟨offsetBetween ⟨.AnnotationTk, "opt", 1, 2⟩ ⟨.CloseParen, ")", 1, 8⟩, "opt",
           [joinSpace ["(", "x"]]⟩)) ∧
    parseOneStep 3 ⟨[⟨.AnnotationTk, "opt", 1, 2⟩, ⟨.OpenParen, "(", 1, 6⟩,
        ⟨.Identifier, "x", 1, 7⟩, ⟨.Comma, ",", 1, 8⟩, ⟨.EOF, "", 1, 9⟩],
        0, [], nilSlice, [], nilSlice, emptyFile⟩
      = .error (.parseErr ⟨.Comma, ",", 1, 8⟩ "expected value") :=
  ⟨c6_spaced_annotation_values.1 3 ⟨[⟨.AnnotationTk, "opt", 1, 2⟩, ⟨.OpenParen, "(", 1, 6⟩,
        ⟨.Identifier, "x", 1, 7⟩, ⟨.CloseParen, ")", 1, 8⟩, ⟨.EOF, "", 1, 9⟩],
        0, [], nilSlice, [], nilSlice, emptyFile⟩
      ⟨.AnnotationTk, "opt", 1, 2⟩ ⟨.OpenParen, "(", 1, 6⟩ ⟨.CloseParen, ")", 1, 8⟩
      [⟨.Identifier, "x", 1, 7⟩] [⟨.EOF, "", 1, 9⟩]
      rfl rfl rfl rfl (by decide) (by decide),
   c6_spaced_annotation_values.2 3 ⟨[⟨.AnnotationTk, "opt", 1, 2⟩, ⟨.OpenParen, "(", 1, 6⟩,
        ⟨.Identifier, "x", 1, 7⟩, ⟨.Comma, ",", 1, 8⟩, ⟨.EOF, "", 1, 9⟩],
        0, [], nilSlice, [], nilSlice, emptyFile⟩
      ⟨.AnnotationTk, "opt", 1, 2⟩ ⟨.OpenParen, "(", 1, 6⟩ ⟨.Comma, ",", 1, 8⟩
      [⟨.Identifier, "x", 1, 7⟩] [⟨.EOF, "", 1, 9⟩]
      rfl rfl rfl rfl (by decide) (by decide)⟩

end Yarp

namespace Yarp

/-- When `findByNameMem` returns a pointer, that pointer is the freshly
allocated cell at the old end of memory, holding the first matching
element of the scanned range. -/
theorem findByNameMem_fresh (name : String) :
    ∀ (len : Nat) (m : AMem) (base : Nat) (m2 : AMem) (p : Nat),
      base + len ≤ m.cells.length →
      findByNameMem m base name len = (m2, some p) →
      p = m.cells.length ∧
      ∃ v, m2.cells = m.cells ++ [v] ∧
        (memReadColl m base len).find? (fun a => a.name == name) = some v := by
  intro len
  induction len with
  | zero =>
      intro m base m2 p _ h
      rw [findByNameMem] at h
      injection h with _ h2
      exact Option.noConfusion h2
  | succ n ih =>
      intro m base m2 p hwf h
      have hbase : base < m.cells.length := by omega
      have hget : m.cells.getD base default = m.cells[base] := by
        simp [List.getD, List.getElem?_eq_getElem hbase]
      have hcoll : memReadColl m base (n + 1)
          = m.cells[base] :: memReadColl m (base + 1) n := by
        unfold memReadColl
        rw [← List.getElem_cons_drop m.cells base hbase, List.take_succ_cons]
      rw [findByNameMem] at h
      by_cases hm : (m.cells.getD base default).name = name
      · rw [if_pos hm] at h
        injection h with h1 h2
        injection h2 with h2
        subst h1
        have hmb : (m.cells[base].name == name) = true := by
          rw [← hget]
          exact beq_iff_eq.mpr hm
        refine ⟨h2.symm, m.cells[base], by rw [hget], ?_⟩
        rw [hcoll, @List.find?_cons_of_pos _ (fun a => a.name == name) (m.cells[base])
          (memReadColl m (base + 1) n) hmb]
      · rw [if_neg hm] at h
        obtain ⟨hp, v, hv, hfind⟩ := ih m (base + 1) m2 p (by omega) h
        have hmb : ¬ (m.cells[base].name == name) = true := by
          rw [← hget]
          simpa using hm
        refine ⟨hp, v, hv, ?_⟩
        rw [hcoll, @List.find?_cons_of_neg _ (fun a => a.name == name) (m.cells[base])
          (memReadColl m (base + 1) n) hmb, hfind]

/-- C10: `FindByName` hands back a pointer to a copy — the escaping range
variable of the matching iteration, a fresh cell past the collection —
never a pointer into the collection's own cells; writing any value through
it leaves the collection's contents unchanged, and the copy is the first
matching element. -/
theorem c10_find_by_name_returns_copy (m : AMem) (base len : Nat) (name : String)
    (m2 : AMem) (p : Nat) (x : AnnotationValue)
    (hwf : base + len ≤ m.cells.length)
    (h : findByNameMem m base name len = (m2, some p)) :
    memReadColl (memWrite m2 p x) base len = memReadColl m base len ∧
    (memReadColl m base len).find? (fun a => a.name == name)
      = some (m2.cells.getD p default) := by
  obtain ⟨hp, v, hv, hfind⟩ := findByNameMem_fresh name len m base m2 p hwf h
  have hset : ((m.cells ++ [v]).set m.cells.length x) = m.cells ++ [x] := by
    rw [List.set_append_right _ _ (Nat.le_refl _)]
    simp
  constructor
  · unfold memWrite memReadColl
    rw [hv, hp, hset]
    rw [List.drop_append_of_le_length (by omega)]
    rw [List.take_append_of_le_length (by rw [List.length_drop]; omega)]
  · rw [hfind, hv, hp]
    congr 1
    rw [List.getD_append_right _ _ _ _ (Nat.le_refl _)]
    simp

end Yarp

namespace Yarp

/-- C10 witness: the copy discipline applied to a two-element collection
whose second element matches; overwriting the returned cell leaves the
collection unchanged. -/
theorem c10_find_by_name_witness :
    memReadColl (memWrite ⟨[⟨default, "a", []⟩, ⟨default, "b", []⟩, ⟨default, "b", []⟩]⟩ 2
        ⟨default, "z", ["w"]⟩) 0 2
      = memReadColl ⟨[⟨default, "a", []⟩, ⟨default, "b", []⟩]⟩ 0 2 ∧
    (memReadColl ⟨[⟨default, "a", []⟩, ⟨default, "b", []⟩]⟩ 0 2).find?
        (fun a => a.name == "b")
      = some ((⟨[⟨default, "a", []⟩, ⟨default, "b", []⟩, ⟨default, "b", []⟩]⟩ : AMem).cells.getD
          2 default) :=
  c10_find_by_name_returns_copy ⟨[⟨default, "a", []⟩, ⟨default, "b", []⟩]⟩ 0 2 "b"
    ⟨[⟨default, "a", []⟩, ⟨default, "b", []⟩, ⟨default, "b", []⟩]⟩ 2 ⟨default, "z", ["w"]⟩
    (by decide) rfl

end Yarp
